import Mathlib

/-!
Verification of the Cell State Manager of `src/Cell_Performance.py`
(Streamlit battery cell monitor).

The Python session state is modelled as a `MonitorState`: an insertion-ordered
association list (a Python `dict`) from cell ids to cell records plus the
`cell_counter` sequence number.  Python floats are modelled as rationals;
Python `round(x, n)` (round half to even) is `pyRound`.  The random draws
(`random.uniform`) and wall-clock timestamps are modelled as explicit inputs
to the operations.  The Batteries rational operations are restored to
`semireducible` so that concrete states evaluate inside `decide`.
-/

attribute [local semireducible] Rat.mul Rat.add Rat.sub Rat.inv

namespace CellPerf

/-- Round half to even on rationals: the integer nearest to `q`, ties going to
the even integer.  This is the rounding Python's builtin `round` performs. -/
def rhe (q : ℚ) : ℤ :=
  if q - ⌊q⌋ < 1/2 then ⌊q⌋
  else if (1 : ℚ)/2 < q - ⌊q⌋ then ⌊q⌋ + 1
  else if ⌊q⌋ % 2 = 0 then ⌊q⌋ else ⌊q⌋ + 1

/-- Python `round(q, ndigits)`: scale, round half to even, unscale. -/
def pyRound (q : ℚ) (ndigits : ℕ) : ℚ :=
  (rhe (q * 10 ^ ndigits) : ℚ) / 10 ^ ndigits

/-- Fuel-driven accumulator loop producing the decimal digits of `n` in
front of `acc`, most significant digit first.  Structural recursion on the
fuel keeps it kernel-computable. -/
def natReprAux : ℕ → ℕ → List Char → List Char
  | 0, _, acc => acc
  | fuel + 1, n, acc =>
    if n < 10 then Nat.digitChar n :: acc
    else natReprAux fuel (n / 10) (Nat.digitChar (n % 10) :: acc)

/-- Decimal rendering of a natural number, as Python `str(int)` produces
for non-negative values: most significant digit first. -/
def natRepr (n : ℕ) : List Char := natReprAux (n + 1) n []

/-- String form of `natRepr`. -/
def natStr (n : ℕ) : String := String.mk (natRepr n)

/-- Value of a digit string, left fold; inverse of `natRepr`. -/
def reprVal (l : List Char) : ℕ :=
  l.foldl (fun acc c => 10 * acc + (c.toNat - 48)) 0

/-- A cell record, the value type of `st.session_state.cells_data`.  Field
names follow the Python dictionary keys. -/
structure Cell where
  type : String
  voltage : ℚ
  current : ℚ
  temp : ℚ
  capacity : ℚ
  status : String
  created : String
deriving DecidableEq, Repr

/-- The cells store: a Python `dict` as an insertion-ordered association
list with unique keys. -/
abbrev CellsData := List (String × Cell)

/-- Python `d[k]` / `k in d`: first (only) binding of `k`. -/
def dictGet (k : String) : CellsData → Option Cell
  | [] => none
  | p :: rest => if p.1 = k then some p.2 else dictGet k rest

/-- Python `d[k] = v`: replace in place if the key is present, else append. -/
def dictSet (k : String) (v : Cell) (d : CellsData) : CellsData :=
  if (dictGet k d).isSome then d.map (fun p => if p.1 = k then (k, v) else p)
  else d ++ [(k, v)]

/-- Python `del d[k]`. -/
def dictDel (k : String) (d : CellsData) : CellsData :=
  d.filter (fun p => p.1 ≠ k)

/-- The mutable session state: `st.session_state.cells_data` and
`st.session_state.cell_counter`. -/
structure MonitorState where
  cells_data : CellsData
  cell_counter : ℕ
deriving DecidableEq, Repr

/-- The fixed chemistry → voltage table, with `.get(cell_type, 3.6)`
defaulting semantics. -/
def voltage_map (cell_type : String) : ℚ :=
  if cell_type = "lfp" then 32/10
  else if cell_type = "li-ion" then 36/10
  else if cell_type = "nicad" then 12/10
  else if cell_type = "nimh" then 12/10
  else if cell_type = "lead-acid" then 2
  else 36/10

/-- The list `valid_cell_types` from the constructor. -/
def valid_cell_types : List String := ["lfp", "li-ion", "nicad", "nimh", "lead-acid"]

/-- The id string `f"cell_\x7bcounter\x7d_\x7bcell_type\x7d"`. -/
def cellIdStr (counter : ℕ) (cell_type : String) : String :=
  "cell_" ++ natStr counter ++ "_" ++ cell_type

/-- `StreamlitBatteryCellMonitor.add_cell`.  The `random.uniform(25, 40)`
draw and the `datetime.now()` timestamp are explicit inputs. -/
def add_cell (s : MonitorState) (cell_type : String) (tempDraw : ℚ)
    (created : String) : (Bool × String) × MonitorState :=
  if 8 ≤ s.cells_data.length then ((false, "Maximum 8 cells reached!"), s)
  else
    let counter := s.cell_counter + 1
    let cell_id := cellIdStr counter cell_type
    let voltage := voltage_map cell_type
    let c : Cell :=
      { type := cell_type, voltage := voltage, current := 0,
        temp := pyRound tempDraw 1, capacity := 0, status := "Ready",
        created := created }
    ((true, "Added new cell: " ++ cell_id),
      { cells_data := dictSet cell_id c s.cells_data, cell_counter := counter })

/-- `StreamlitBatteryCellMonitor.remove_cell`. -/
def remove_cell (s : MonitorState) (cell_id : String) :
    (Bool × String) × MonitorState :=
  if (dictGet cell_id s.cells_data).isSome then
    ((true, "Removed cell: " ++ cell_id),
      { cells_data := dictDel cell_id s.cells_data,
        cell_counter := s.cell_counter })
  else ((false, "Cell not found!"), s)

/-- `StreamlitBatteryCellMonitor.update_cell_current`.  Note the source
performs no validation of `current` here. -/
def update_cell_current (s : MonitorState) (cell_id : String) (current : ℚ) :
    Bool × MonitorState :=
  match dictGet cell_id s.cells_data with
  | some cell =>
    (true,
      { cells_data :=
          dictSet cell_id
            { cell with
              current := current,
              capacity := pyRound (cell.voltage * current) 2,
              status := if 0 < current then "Active" else "Standby" }
            s.cells_data,
        cell_counter := s.cell_counter })
  | none => (false, s)

/-- The Clear All button in `main`: empties the dict and zeroes the counter. -/
def clear_all (_s : MonitorState) : MonitorState :=
  { cells_data := [], cell_counter := 0 }

/-- The fresh session state (empty dict, `cell_counter = 0`). -/
def initState : MonitorState := { cells_data := [], cell_counter := 0 }

/-- One user-visible mutation of the registry. -/
inductive Op where
  | add (cell_type : String) (tempDraw : ℚ) (created : String)
  | remove (cell_id : String)
  | update (cell_id : String) (current : ℚ)
  | clear
deriving Repr

/-- The state transition each operation induces. -/
def step (s : MonitorState) : Op → MonitorState
  | .add t d cr => (add_cell s t d cr).2
  | .remove i => (remove_cell s i).2
  | .update i c => (update_cell_current s i c).2
  | .clear => clear_all s

/-- Run a sequence of operations from a state. -/
def runOps (s : MonitorState) : List Op → MonitorState
  | [] => s
  | op :: rest => runOps (step s op) rest

/-- Whether an operation supplies a non-negative current.  Every command
surface entry point satisfies this: the update form bounds its inputs to
`[0, 10]` and the randomize button draws in `[0, 5]`. -/
def opNonneg : Op → Bool
  | .update _ c => decide (0 ≤ c)
  | _ => true

/-- A dataframe entry: a string or a numeric (float) value. -/
inductive Val where
  | s (v : String)
  | q (v : ℚ)
deriving DecidableEq, Repr

/-- One dataframe row: `row = \x7b"Cell ID": cell_id\x7d; row.update(cell_data)`. -/
def cellRow (p : String × Cell) : List (String × Val) :=
  [("Cell ID", .s p.1), ("type", .s p.2.type), ("voltage", .q p.2.voltage),
   ("current", .q p.2.current), ("temp", .q p.2.temp),
   ("capacity", .q p.2.capacity), ("status", .s p.2.status),
   ("created", .s p.2.created)]

/-- `get_cells_dataframe`: one row per cell in insertion order; the empty
dict yields `pd.DataFrame()`, an empty frame with no columns. -/
def get_cells_dataframe (s : MonitorState) : List (List (String × Val)) :=
  s.cells_data.map cellRow

/-- The column labels of a dataframe (none when the frame is empty). -/
def dfColumns : List (List (String × Val)) → List String
  | [] => []
  | r :: _ => r.map Prod.fst

/-- Field access inside one row. -/
def lookupVal (k : String) : List (String × Val) → Option Val
  | [] => none
  | p :: rest => if p.1 = k then some p.2 else lookupVal k rest

/-- Extract the `name` entry of every row; `none` when any row lacks it. -/
def seriesOf (name : String) : List (List (String × Val)) → Option (List Val)
  | [] => some []
  | r :: rest =>
    match lookupVal name r, seriesOf name rest with
    | some v, some vs => some (v :: vs)
    | _, _ => none

/-- `df[name]`: the column as a series; `none` models the `KeyError` raised
when the column does not exist (in particular on the empty frame, which has
no columns at all). -/
def dfColumn (df : List (List (String × Val))) (name : String) :
    Option (List Val) :=
  if df = [] then none else seriesOf name df

/-- Numeric content of a dataframe value. -/
def valAsQ : Val → ℚ
  | .q v => v
  | .s _ => 0

/-- `df[name].sum()`. -/
def seriesSum (df : List (List (String × Val))) (name : String) : Option ℚ :=
  (dfColumn df name).map (fun l => (l.map valAsQ).sum)

/-- `df[name].mean()` (only ever evaluated on nonempty frames in `main`). -/
def seriesMean (df : List (List (String × Val))) (name : String) : Option ℚ :=
  (dfColumn df name).map (fun l => (l.map valAsQ).sum / l.length)

/-- The metrics row of `main`. -/
structure Metrics where
  total_cells : ℕ
  active_cells : ℕ
  total_capacity : Option ℚ
  avg_temp : Option ℚ
  total_current : Option ℚ
deriving DecidableEq, Repr

/-- The metrics `main` displays: computed only in the `else` branch, i.e.
only when `st.session_state.cells_data` is nonempty. -/
def mainMetrics (s : MonitorState) : Option Metrics :=
  if s.cells_data = [] then none
  else
    let df := get_cells_dataframe s
    some
      { total_cells := df.length,
        active_cells :=
          (df.filter (fun r =>
            decide (lookupVal "status" r = some (.s "Active")))).length,
        total_capacity := seriesSum df "capacity",
        avg_temp := seriesMean df "temp",
        total_current := seriesSum df "current" }

/-- Fuel-driven search for the smallest exponent `k ≥ 1` (up to 17) with
`q * 10 ^ k` integral: the number of decimal digits `repr(float)` prints. -/
def decExpGo : ℕ → ℚ → ℕ → ℕ
  | 0, _, k => k
  | fuel + 1, q, k => if (q * 10 ^ k).den = 1 then k else decExpGo fuel q (k + 1)

/-- Decimal exponent used to render a (finite-decimal) rational. -/
def decExp (q : ℚ) : ℕ := decExpGo 17 q 1

/-- Zero-pad a digit list on the left to length `e`. -/
def padZeros (e : ℕ) (l : List Char) : List Char :=
  List.replicate (e - l.length) '0' ++ l

/-- Rendering of a Python float value holding a finite decimal, as `repr`
(and hence `json.dumps` and `pandas.to_csv`) prints it: minimal digits with
at least one fractional digit, e.g. `3.2`, `0.0`, `-1.5`. -/
def renderQ (q : ℚ) : String :=
  let a := if q < 0 then -q else q
  let e := decExp a
  let n := (a * 10 ^ e).num.toNat
  (if q < 0 then "-" else "") ++ natStr (n / 10 ^ e) ++ "." ++
    String.mk (padZeros e (natRepr (n % 10 ^ e)))

/-- CSV field quoting as `pandas.to_csv` performs it: quote when the value
contains a delimiter, quote or newline; double embedded quotes. -/
def csvEscape (v : String) : String :=
  if v.data.any (fun c => c == ',' || c == '\"' || c == '\n') then
    "\"" ++ String.mk (v.data.foldr
      (fun c acc => if c = '\"' then '\"' :: '\"' :: acc else c :: acc) []) ++ "\""
  else v

/-- Rendering of one dataframe entry in the CSV export. -/
def renderVal : Val → String
  | .s v => csvEscape v
  | .q v => renderQ v

/-- `df.to_csv(index=False)`: the header line then one line per row, each
line newline-terminated (the empty frame yields just a newline). -/
def to_csv (df : List (List (String × Val))) : String :=
  String.intercalate "," (dfColumns df) ++ "\n" ++
    String.join (df.map (fun r =>
      String.intercalate "," (r.map (fun p => renderVal p.2)) ++ "\n"))

/-- `export_data('csv')`. -/
def export_data_csv (s : MonitorState) : String :=
  to_csv (get_cells_dataframe s)

/-- The first line of a string (used to inspect the CSV header). -/
def firstLine (s : String) : String :=
  String.mk (s.data.takeWhile (fun c => c ≠ '\n'))

/-- A JSON scalar as a raw token: a string's characters, or a number's
rendered characters. -/
inductive JScalar where
  | jstr (s : List Char)
  | jnum (s : List Char)
deriving DecidableEq, Repr

/-- A JSON object of scalars (one exported cell). -/
abbrev JObj := List (List Char × JScalar)

/-- The top-level JSON document: cells keyed by id, in insertion order. -/
abbrev JDoc := List (List Char × JObj)

/-- The JSON object for one cell, fields in dict order. -/
def cellJson (c : Cell) : JObj :=
  [("type".data, .jstr c.type.data),
   ("voltage".data, .jnum (renderQ c.voltage).data),
   ("current".data, .jnum (renderQ c.current).data),
   ("temp".data, .jnum (renderQ c.temp).data),
   ("capacity".data, .jnum (renderQ c.capacity).data),
   ("status".data, .jstr c.status.data),
   ("created".data, .jstr c.created.data)]

/-- The JSON document of the whole state. -/
def stateJson (s : MonitorState) : JDoc :=
  s.cells_data.map (fun p => (p.1.data, cellJson p.2))

/-- Encoding of a scalar. -/
def encScalar : JScalar → List Char
  | .jstr s => '\"' :: s ++ ['\"']
  | .jnum s => s

/-- One inner field at `json.dumps(..., indent=2)`'s second level:
four spaces, quoted key, colon, space, scalar. -/
def encField (p : List Char × JScalar) : List Char :=
  ' ' :: ' ' :: ' ' :: ' ' :: '\"' :: p.1 ++ '\"' :: ':' :: ' ' :: encScalar p.2

/-- Inner fields joined by `",\n"`. -/
def encFields : JObj → List Char
  | [] => []
  | [p] => encField p
  | p :: rest => encField p ++ ',' :: '\n' :: encFields rest

/-- One cell object at indent level 1 (closing brace indented two spaces). -/
def encCell (l : JObj) : List Char :=
  match l with
  | [] => ['\x7b', '\x7d']
  | _ => '\x7b' :: '\n' :: encFields l ++ '\n' :: ' ' :: ' ' :: ['\x7d']

/-- One top-level entry: two spaces, quoted id, colon, space, cell object. -/
def encEntry (p : List Char × JObj) : List Char :=
  ' ' :: ' ' :: '\"' :: p.1 ++ '\"' :: ':' :: ' ' :: encCell p.2

/-- Top-level entries joined by `",\n"`. -/
def encEntries : JDoc → List Char
  | [] => []
  | [p] => encEntry p
  | p :: rest => encEntry p ++ ',' :: '\n' :: encEntries rest

/-- `json.dumps(cells_data, indent=2)` over the token-level document. -/
def encDoc (d : JDoc) : List Char :=
  match d with
  | [] => ['\x7b', '\x7d']
  | _ => '\x7b' :: '\n' :: encEntries d ++ '\n' :: ['\x7d']

/-- `export_data('json')`. -/
def export_data_json (s : MonitorState) : String :=
  String.mk (encDoc (stateJson s))

/-- JSON whitespace as `json.loads` skips it. -/
def wsChar (c : Char) : Bool := c == ' ' || c == '\n' || c == '\t' || c == '\r'

/-- Drop leading JSON whitespace. -/
def skipWs : List Char → List Char
  | [] => []
  | c :: rest => if wsChar c then skipWs rest else c :: rest

/-- Characters a JSON number token may contain. -/
def numChar (c : Char) : Bool :=
  c.isDigit || c == '.' || c == '-' || c == '+' || c == 'e' || c == 'E'

/-- Parse a quoted string (no escape handling: the exported strings contain
neither quotes nor backslashes). -/
def parseKey : List Char → Option (List Char × List Char)
  | '\"' :: rest =>
    match rest.dropWhile (fun c => c ≠ '\"') with
    | '\"' :: r => some (rest.takeWhile (fun c => c ≠ '\"'), r)
    | _ => none
  | _ => none

/-- Parse a scalar: a quoted string or a maximal number token. -/
def parseScalar : List Char → Option (JScalar × List Char)
  | [] => none
  | c :: rest =>
    if c = '\"' then
      match rest.dropWhile (fun x => x ≠ '\"') with
      | '\"' :: r => some (.jstr (rest.takeWhile (fun x => x ≠ '\"')), r)
      | _ => none
    else if numChar c then
      some (.jnum ((c :: rest).takeWhile numChar), (c :: rest).dropWhile numChar)
    else none

/-- Parse the fields of a nonempty inner object, positioned at the first
key; consumes the closing brace. -/
def parseFieldsGo : ℕ → List Char → Option (JObj × List Char)
  | 0, _ => none
  | fuel + 1, input =>
    match parseKey input with
    | none => none
    | some (k, r1) =>
      match skipWs r1 with
      | ':' :: r2 =>
        match parseScalar (skipWs r2) with
        | none => none
        | some (v, r3) =>
          match skipWs r3 with
          | ',' :: r4 =>
            (parseFieldsGo fuel (skipWs r4)).map (fun q => ((k, v) :: q.1, q.2))
          | '\x7d' :: r4 => some ([(k, v)], r4)
          | _ => none
      | _ => none

/-- Parse one inner object including its braces. -/
def parseCellObj (fuel : ℕ) (input : List Char) : Option (JObj × List Char) :=
  match skipWs input with
  | '\x7b' :: r =>
    match skipWs r with
    | '\x7d' :: r' => some ([], r')
    | r' => parseFieldsGo fuel r'
  | _ => none

/-- Parse the entries of a nonempty top-level object, positioned at the
first key; consumes the closing brace. -/
def parseEntriesGo : ℕ → List Char → Option (JDoc × List Char)
  | 0, _ => none
  | fuel + 1, input =>
    match parseKey input with
    | none => none
    | some (k, r1) =>
      match skipWs r1 with
      | ':' :: r2 =>
        match parseCellObj fuel r2 with
        | none => none
        | some (v, r3) =>
          match skipWs r3 with
          | ',' :: r4 =>
            (parseEntriesGo fuel (skipWs r4)).map (fun q => ((k, v) :: q.1, q.2))
          | '\x7d' :: r4 => some ([(k, v)], r4)
          | _ => none
      | _ => none

/-- Parse the top-level object including its braces. -/
def parseDocTop (fuel : ℕ) (input : List Char) : Option (JDoc × List Char) :=
  match skipWs input with
  | '\x7b' :: r =>
    match skipWs r with
    | '\x7d' :: r' => some ([], r')
    | r' => parseEntriesGo fuel r'
  | _ => none

/-- `json.loads` over the modelled grammar: parse the document and require
only whitespace to remain. -/
def json_loads (s : String) : Option JDoc :=
  match parseDocTop (s.data.length + 1) s.data with
  | some (d, rest) => if skipWs rest = [] then some d else none
  | none => none

/-- A string token is safe when it contains no quote and no backslash. -/
def noQuote (s : List Char) : Bool := s.all (fun c => c ≠ '\"' && c ≠ '\\')

/-- Well-formedness of a scalar token. -/
def wfScalar : JScalar → Bool
  | .jstr s => noQuote s
  | .jnum s => !s.isEmpty && s.all numChar

/-- Well-formedness of an inner object. -/
def wfObj (l : JObj) : Bool :=
  l.all (fun p => noQuote p.1 && wfScalar p.2)

/-- Well-formedness of a document. -/
def wfDoc (d : JDoc) : Bool :=
  d.all (fun p => noQuote p.1 && wfObj p.2)

/-! ### Helper lemmas: decimal rendering -/

theorem natReprAux_acc (fuel : ℕ) : ∀ n acc, n < fuel →
    natReprAux fuel n acc = natReprAux fuel n [] ++ acc := by
  induction fuel with
  | zero => intro n acc h; omega
  | succ fuel ih =>
    intro n acc h
    by_cases h10 : n < 10
    · simp [natReprAux, h10]
    · have hlt : n / 10 < fuel :=
        lt_of_lt_of_le (Nat.div_lt_self (by omega) (by omega)) (by omega)
      simp only [natReprAux, h10, if_false]
      rw [ih (n / 10) (Nat.digitChar (n % 10) :: acc) hlt,
        ih (n / 10) [Nat.digitChar (n % 10)] hlt]
      simp

theorem natReprAux_fuel (f1 : ℕ) : ∀ f2 n, n < f1 → n < f2 →
    natReprAux f1 n [] = natReprAux f2 n [] := by
  induction f1 with
  | zero => intro f2 n h; omega
  | succ f1 ih =>
    intro f2 n h1 h2
    match f2, h2 with
    | f2 + 1, h2 =>
      by_cases h10 : n < 10
      · simp [natReprAux, h10]
      · have hd : n / 10 < n := Nat.div_lt_self (by omega) (by omega)
        simp only [natReprAux, h10, if_false]
        rw [natReprAux_acc f1 _ _ (by omega), natReprAux_acc f2 _ _ (by omega),
          ih f2 (n / 10) (by omega) (by omega)]

theorem natRepr_lt10 {n : ℕ} (h : n < 10) : natRepr n = [Nat.digitChar n] := by
  simp [natRepr, natReprAux, h]

theorem natRepr_ge10 {n : ℕ} (h : 10 ≤ n) :
    natRepr n = natRepr (n / 10) ++ [Nat.digitChar (n % 10)] := by
  have h10 : ¬ n < 10 := by omega
  have hd : n / 10 < n := Nat.div_lt_self (by omega) (by omega)
  show natReprAux (n + 1) n [] = _
  simp only [natReprAux, h10, if_false]
  rw [natReprAux_acc n _ _ (by omega),
    natReprAux_fuel n (n / 10 + 1) (n / 10) (by omega) (by omega)]
  rfl

theorem reprVal_append_digit (l : List Char) (c : Char) :
    reprVal (l ++ [c]) = 10 * reprVal l + (c.toNat - 48) := by
  simp [reprVal, List.foldl_append]

theorem digitChar_toNat (k : ℕ) (h : k < 10) : (Nat.digitChar k).toNat = 48 + k := by
  interval_cases k <;> rfl

theorem reprVal_natRepr (n : ℕ) : reprVal (natRepr n) = n := by
  induction n using Nat.strong_induction_on with
  | _ n ih =>
    by_cases h : n < 10
    · rw [natRepr_lt10 h]
      simp [reprVal, digitChar_toNat n h]
    · rw [natRepr_ge10 (by omega)]
      rw [reprVal_append_digit, ih (n / 10) (Nat.div_lt_self (by omega) (by omega)),
        digitChar_toNat (n % 10) (Nat.mod_lt _ (by omega))]
      omega

theorem natRepr_injective : Function.Injective natRepr := by
  intro a b h
  have := reprVal_natRepr a
  rw [h, reprVal_natRepr] at this
  omega

theorem digitChar_isDigit (k : ℕ) (h : k < 10) : (Nat.digitChar k).isDigit = true := by
  interval_cases k <;> rfl

theorem natRepr_digits (n : ℕ) : ∀ c ∈ natRepr n, c.isDigit = true := by
  induction n using Nat.strong_induction_on with
  | _ n ih =>
    by_cases h : n < 10
    · rw [natRepr_lt10 h]
      intro c hc
      simp at hc
      subst hc
      exact digitChar_isDigit n h
    · rw [natRepr_ge10 (by omega)]
      intro c hc
      rcases List.mem_append.1 hc with h1 | h1
      · exact ih (n / 10) (Nat.div_lt_self (by omega) (by omega)) c h1
      · simp at h1
        subst h1
        exact digitChar_isDigit (n % 10) (Nat.mod_lt _ (by omega))

theorem natRepr_ne_nil (n : ℕ) : natRepr n ≠ [] := by
  by_cases h : n < 10
  · rw [natRepr_lt10 h]; simp
  · rw [natRepr_ge10 (by omega)]; simp

/-! ### Helper lemmas: the dict model -/

theorem dictGet_none_notMem {k : String} {d : CellsData}
    (h : dictGet k d = none) : ∀ p ∈ d, p.1 ≠ k := by
  induction d with
  | nil => intro p hp; simp at hp
  | cons a rest ih =>
    intro p hp
    by_cases ha : a.1 = k
    · simp [dictGet, ha] at h
    · rcases List.mem_cons.1 hp with rfl | hp
      · exact ha
      · exact ih (by simpa [dictGet, ha] using h) p hp

theorem dictGet_mapReplace_self (k : String) (v : Cell) (d : CellsData)
    (h : (dictGet k d).isSome = true) :
    dictGet k (d.map (fun p => if p.1 = k then (k, v) else p)) = some v := by
  induction d with
  | nil => simp [dictGet] at h
  | cons a rest ih =>
    by_cases hak : a.1 = k
    · simp [List.map_cons, hak, dictGet]
    · simp only [List.map_cons, if_neg hak, dictGet, hak, if_false]
      exact ih (by simpa [dictGet, hak] using h)

theorem dictGet_append_self (k : String) (v : Cell) (d : CellsData)
    (h : dictGet k d = none) :
    dictGet k (d ++ [(k, v)]) = some v := by
  induction d with
  | nil => simp [dictGet]
  | cons a rest ih =>
    have hak : a.1 ≠ k := dictGet_none_notMem h a (by simp)
    simp only [List.cons_append, dictGet, hak, if_false]
    exact ih (by simpa [dictGet, hak] using h)

theorem dictGet_dictSet_self (k : String) (v : Cell) (d : CellsData) :
    dictGet k (dictSet k v d) = some v := by
  unfold dictSet
  by_cases h : (dictGet k d).isSome
  · rw [if_pos h]
    exact dictGet_mapReplace_self k v d h
  · rw [if_neg h]
    apply dictGet_append_self
    cases hget : dictGet k d with
    | none => rfl
    | some c => rw [hget] at h; simp at h

theorem dictGet_mapReplace_ne (k k' : String) (v : Cell) (d : CellsData)
    (h : k' ≠ k) :
    dictGet k' (d.map (fun p => if p.1 = k then (k, v) else p)) = dictGet k' d := by
  induction d with
  | nil => rfl
  | cons a rest ih =>
    by_cases hak : a.1 = k
    · have ha' : a.1 ≠ k' := by rw [hak]; exact Ne.symm h
      simp only [List.map_cons, if_pos hak, dictGet, if_neg (Ne.symm h),
        if_neg ha']
      exact ih
    · simp only [List.map_cons, if_neg hak, dictGet]
      by_cases ha : a.1 = k'
      · simp [ha]
      · simp [ha, ih]

theorem dictGet_append_ne (k k' : String) (v : Cell) (d : CellsData)
    (h : k' ≠ k) :
    dictGet k' (d ++ [(k, v)]) = dictGet k' d := by
  induction d with
  | nil => simp [dictGet, Ne.symm h]
  | cons a rest ih =>
    simp only [List.cons_append, dictGet]
    by_cases ha : a.1 = k'
    · simp [ha]
    · simp [ha, ih]

theorem dictGet_dictSet_ne (k k' : String) (v : Cell) (d : CellsData)
    (h : k' ≠ k) : dictGet k' (dictSet k v d) = dictGet k' d := by
  unfold dictSet
  by_cases hs : (dictGet k d).isSome
  · rw [if_pos hs]
    exact dictGet_mapReplace_ne k k' v d h
  · rw [if_neg hs]
    exact dictGet_append_ne k k' v d h

theorem length_dictSet_present {k : String} {d : CellsData}
    (h : (dictGet k d).isSome = true) (v : Cell) :
    (dictSet k v d).length = d.length := by
  simp [dictSet, h]

theorem length_dictSet_absent {k : String} {d : CellsData}
    (h : (dictGet k d).isSome = false) (v : Cell) :
    (dictSet k v d).length = d.length + 1 := by
  simp [dictSet, h]

theorem mem_dictSet {k : String} {v : Cell} {d : CellsData} {p : String × Cell}
    (h : p ∈ dictSet k v d) : p = (k, v) ∨ p ∈ d := by
  unfold dictSet at h
  by_cases hs : (dictGet k d).isSome
  · simp only [hs, if_true] at h
    rcases List.mem_map.1 h with ⟨q, hq, hqe⟩
    by_cases hqk : q.1 = k
    · simp only [hqk, if_true] at hqe
      exact Or.inl hqe.symm
    · simp only [hqk, if_false] at hqe
      exact Or.inr (hqe ▸ hq)
  · simp only [hs, if_false] at h
    rcases List.mem_append.1 h with h1 | h1
    · exact Or.inr h1
    · simp at h1
      exact Or.inl h1

theorem mapReplace_id (k : String) (v : Cell) (d : CellsData)
    (h : ∀ p ∈ d, p.1 ≠ k) :
    d.map (fun p => if p.1 = k then (k, v) else p) = d := by
  induction d with
  | nil => rfl
  | cons a rest ih =>
    simp only [List.map_cons, if_neg (h a (by simp))]
    rw [ih (fun p hp => h p (List.mem_cons_of_mem a hp))]

theorem dictSet_dictSet_same (k : String) (v1 v2 : Cell) (d : CellsData) :
    dictSet k v2 (dictSet k v1 d) = dictSet k v2 d := by
  have hset : (dictGet k (dictSet k v1 d)).isSome = true := by
    rw [dictGet_dictSet_self]; rfl
  by_cases hs : (dictGet k d).isSome
  · show
      (if (dictGet k (dictSet k v1 d)).isSome then _ else _) = _
    rw [if_pos hset]
    unfold dictSet
    rw [if_pos hs, if_pos hs, List.map_map]
    congr 1
    funext p
    by_cases hp : p.1 = k <;> simp [hp, Function.comp]
  · show
      (if (dictGet k (dictSet k v1 d)).isSome then _ else _) = _
    rw [if_pos hset]
    unfold dictSet
    rw [if_neg (by simp [hs]), if_neg (by simp [hs]), List.map_append]
    have hnone : dictGet k d = none := by
      cases hget : dictGet k d with
      | none => rfl
      | some c => rw [hget] at hs; simp at hs
    rw [mapReplace_id k v2 d (dictGet_none_notMem hnone)]
    simp

/-! ### Helper lemmas: rounding -/

theorem rhe_cases (q : ℚ) : rhe q = ⌊q⌋ ∨ rhe q = ⌊q⌋ + 1 := by
  unfold rhe
  split
  · exact Or.inl rfl
  · split
    · exact Or.inr rfl
    · split
      · exact Or.inl rfl
      · exact Or.inr rfl

theorem le_rhe {n : ℤ} {q : ℚ} (h : (n : ℚ) ≤ q) : n ≤ rhe q := by
  have hf : n ≤ ⌊q⌋ := Int.le_floor.2 h
  rcases rhe_cases q with h1 | h1 <;> omega

theorem rhe_le {n : ℤ} {q : ℚ} (h : q ≤ (n : ℚ)) : rhe q ≤ n := by
  have hf : ⌊q⌋ ≤ n := by
    have := Int.floor_mono h
    rwa [Int.floor_intCast] at this
  rcases eq_or_lt_of_le hf with heq | hlt
  · have hcast : ((⌊q⌋ : ℤ) : ℚ) = (n : ℚ) := by exact_mod_cast heq
    have hq : q - ⌊q⌋ < 1/2 := by
      rw [hcast]
      linarith
    unfold rhe
    rw [if_pos hq]
    exact hf
  · rcases rhe_cases q with h1 | h1 <;> omega

theorem pyRound1_mem_Icc {q : ℚ} (h1 : 25 ≤ q) (h2 : q ≤ 40) :
    25 ≤ pyRound q 1 ∧ pyRound q 1 ≤ 40 := by
  have hlo : (250 : ℤ) ≤ rhe (q * 10 ^ 1) := by
    apply le_rhe
    push_cast
    linarith
  have hhi : rhe (q * 10 ^ 1) ≤ (400 : ℤ) := by
    apply rhe_le
    push_cast
    linarith
  constructor
  · show (25 : ℚ) ≤ (rhe (q * 10 ^ 1) : ℚ) / 10 ^ 1
    rw [le_div_iff₀ (by norm_num)]
    calc (25 : ℚ) * 10 ^ 1 = ((250 : ℤ) : ℚ) := by norm_num
    _ ≤ (rhe (q * 10 ^ 1) : ℚ) := by exact_mod_cast hlo
  · show (rhe (q * 10 ^ 1) : ℚ) / 10 ^ 1 ≤ 40
    rw [div_le_iff₀ (by norm_num)]
    calc (rhe (q * 10 ^ 1) : ℚ) ≤ ((400 : ℤ) : ℚ) := by exact_mod_cast hhi
    _ = 40 * 10 ^ 1 := by norm_num

/-! ### Step lemmas -/

theorem length_dictSet_le (k : String) (v : Cell) (d : CellsData) :
    (dictSet k v d).length ≤ d.length + 1 := by
  unfold dictSet
  split
  · simp
  · simp

theorem step_length_le {s : MonitorState} (op : Op)
    (h : s.cells_data.length ≤ 8) : (step s op).cells_data.length ≤ 8 := by
  cases op with
  | add t d cr =>
    show ((add_cell s t d cr).2).cells_data.length ≤ 8
    unfold add_cell
    by_cases hc : 8 ≤ s.cells_data.length
    · simpa [hc] using h
    · simp only [hc, if_false]
      calc (dictSet (cellIdStr (s.cell_counter + 1) t) _ s.cells_data).length
          ≤ s.cells_data.length + 1 := length_dictSet_le _ _ _
      _ ≤ 8 := by omega
  | remove i =>
    show ((remove_cell s i).2).cells_data.length ≤ 8
    unfold remove_cell
    split
    · calc (dictDel i s.cells_data).length ≤ s.cells_data.length :=
        List.length_filter_le _ _
      _ ≤ 8 := h
    · exact h
  | update i c =>
    show ((update_cell_current s i c).2).cells_data.length ≤ 8
    unfold update_cell_current
    cases hget : dictGet i s.cells_data with
    | none => exact h
    | some cell =>
      simp only
      rw [length_dictSet_present (by rw [hget]; rfl)]
      exact h
  | clear => exact Nat.zero_le 8

theorem runOps_length_le (ops : List Op) : ∀ s : MonitorState,
    s.cells_data.length ≤ 8 → (runOps s ops).cells_data.length ≤ 8 := by
  induction ops with
  | nil => intro s h; exact h
  | cons op rest ih => intro s h; exact ih (step s op) (step_length_le op h)

theorem natRepr_no_underscore (n : ℕ) : '_' ∉ natRepr n := by
  intro h
  have := natRepr_digits n '_' h
  simp at this

theorem split_at_sep : ∀ (xs ys t u : List Char), '_' ∉ xs → '_' ∉ ys →
    xs ++ '_' :: t = ys ++ '_' :: u → xs = ys ∧ t = u := by
  intro xs
  induction xs with
  | nil =>
    intro ys t u hx hy h
    cases ys with
    | nil =>
      simp only [List.nil_append, List.cons.injEq] at h
      exact ⟨rfl, h.2⟩
    | cons y ys' =>
      simp only [List.nil_append, List.cons_append, List.cons.injEq] at h
      exact absurd (h.1 ▸ List.mem_cons_self y ys') (by
        intro hm
        exact hy (h.1 ▸ hm))
  | cons x xs' ih =>
    intro ys t u hx hy h
    cases ys with
    | nil =>
      simp only [List.cons_append, List.nil_append, List.cons.injEq] at h
      exact absurd (h.1 ▸ List.mem_cons_self x xs') (by
        intro hm
        exact hx (h.1 ▸ hm))
    | cons y ys' =>
      simp only [List.cons_append, List.cons.injEq] at h
      have hx' : '_' ∉ xs' := fun hm => hx (List.mem_cons_of_mem x hm)
      have hy' : '_' ∉ ys' := fun hm => hy (List.mem_cons_of_mem y hm)
      obtain ⟨he, ht⟩ := ih ys' t u hx' hy' h.2
      exact ⟨by rw [h.1, he], ht⟩

theorem cellIdStr_ne {m n : ℕ} (t u : String) (h : m ≠ n) :
    cellIdStr m t ≠ cellIdStr n u := by
  intro he
  have hd : ("cell_" ++ natStr m ++ "_" ++ t).data =
      ("cell_" ++ natStr n ++ "_" ++ u).data := by
    rw [show ("cell_" ++ natStr m ++ "_" ++ t) = cellIdStr m t from rfl, he]
    rfl
  simp only [String.data_append, natStr] at hd
  have hd' : natRepr m ++ '_' :: t.data = natRepr n ++ '_' :: u.data := by
    have := List.append_cancel_left
      (show "cell_".data ++ (natRepr m ++ '_' :: t.data) =
          "cell_".data ++ (natRepr n ++ '_' :: u.data) by
        simpa [List.append_assoc] using hd)
    exact this
  obtain ⟨hrepr, _⟩ := split_at_sep (natRepr m) (natRepr n) t.data u.data
    (natRepr_no_underscore m) (natRepr_no_underscore n) hd'
  exact h (natRepr_injective hrepr)

theorem add_cell_success (s : MonitorState) (t : String) (d : ℚ) (cr : String)
    (hlen : s.cells_data.length < 8) :
    add_cell s t d cr =
      ((true, "Added new cell: " ++ cellIdStr (s.cell_counter + 1) t),
        ⟨dictSet (cellIdStr (s.cell_counter + 1) t)
          { type := t, voltage := voltage_map t, current := 0,
            temp := pyRound d 1, capacity := 0, status := "Ready",
            created := cr } s.cells_data,
          s.cell_counter + 1⟩) := by
  have hn : ¬ 8 ≤ s.cells_data.length := by omega
  simp [add_cell, hn]

theorem remove_cell_present (s : MonitorState) (i : String)
    (h : (dictGet i s.cells_data).isSome = true) :
    remove_cell s i =
      ((true, "Removed cell: " ++ i),
        ⟨dictDel i s.cells_data, s.cell_counter⟩) := by
  simp [remove_cell, h]

theorem length_dictDel_lt (k : String) (d : CellsData)
    (h : (dictGet k d).isSome = true) :
    (dictDel k d).length < d.length := by
  induction d with
  | nil => simp [dictGet] at h
  | cons a rest ih =>
    by_cases ha : a.1 = k
    · have : ¬ (a.1 ≠ k) := by simpa using ha
      simp only [dictDel, List.filter_cons, decide_eq_true_eq]
      rw [if_neg (by simpa using ha)]
      calc (List.filter (fun p => p.1 ≠ k) rest).length ≤ rest.length :=
        List.length_filter_le _ _
      _ < (a :: rest).length := by simp
    · simp only [dictDel, List.filter_cons, decide_eq_true_eq]
      rw [if_pos (by simpa using ha)]
      have := ih (by simpa [dictGet, ha] using h)
      simpa [dictDel] using Nat.succ_lt_succ this

/-! ### Claim theorems -/

/-- C1: for every sequence of operations the registry holds at most 8 cells,
and an `add_cell` attempted at capacity returns the failure outcome and
leaves the state (cells and counter) unchanged. -/
theorem registry_capacity (ops : List Op) :
    (runOps initState ops).cells_data.length ≤ 8 ∧
    ∀ t d cr, 8 ≤ (runOps initState ops).cells_data.length →
      add_cell (runOps initState ops) t d cr =
        ((false, "Maximum 8 cells reached!"), runOps initState ops) := by
  refine ⟨runOps_length_le ops initState (by simp [initState]), ?_⟩
  intro t d cr h
  simp [add_cell, h]

/-- Witness for C1 at nine consecutive adds. -/
theorem registry_capacity_witness :
    (runOps initState (List.replicate 9 (Op.add "lfp" 30 "t"))).cells_data.length ≤ 8 ∧
    add_cell (runOps initState (List.replicate 9 (Op.add "lfp" 30 "t"))) "nimh" 26 "u" =
      ((false, "Maximum 8 cells reached!"),
        runOps initState (List.replicate 9 (Op.add "lfp" 30 "t"))) :=
  ⟨(registry_capacity (List.replicate 9 (Op.add "lfp" 30 "t"))).1,
    (registry_capacity (List.replicate 9 (Op.add "lfp" 30 "t"))).2 "nimh" 26 "u"
      (by decide)⟩

/-- C2: after `update_cell_current(id, current)` with the id present and
`current ≥ 0`, the stored cell has `capacity = round(voltage * current, 2)`,
status `Active` when `current > 0`, `Standby` when `current = 0`, and holds
the new current. -/
theorem update_current_correct (s : MonitorState) (cell_id : String)
    (current : ℚ) (cell : Cell)
    (hget : dictGet cell_id s.cells_data = some cell) (_hc : 0 ≤ current) :
    ∃ c', dictGet cell_id ((update_cell_current s cell_id current).2).cells_data
        = some c' ∧
      c'.capacity = pyRound (cell.voltage * current) 2 ∧
      (0 < current → c'.status = "Active") ∧
      (current = 0 → c'.status = "Standby") ∧
      c'.current = current := by
  have hdata : ((update_cell_current s cell_id current).2).cells_data =
      dictSet cell_id
        { cell with
          current := current,
          capacity := pyRound (cell.voltage * current) 2,
          status := if 0 < current then "Active" else "Standby" }
        s.cells_data := by
    simp [update_cell_current, hget]
  refine ⟨_, by rw [hdata]; exact dictGet_dictSet_self _ _ _, rfl, ?_, ?_, rfl⟩
  · intro hpos
    simp [hpos]
  · intro hzero
    simp [hzero]

/-- Witness for C2 on a freshly added LFP cell updated to current 1.5. -/
theorem update_current_correct_witness :
    dictGet "cell_1_lfp" ((add_cell initState "lfp" 30 "t").2).cells_data =
      some { type := "lfp", voltage := 32/10, current := 0, temp := 30,
             capacity := 0, status := "Ready", created := "t" } ∧
    (0 : ℚ) ≤ 3/2 ∧
    ∃ c', dictGet "cell_1_lfp"
        ((update_cell_current (add_cell initState "lfp" 30 "t").2 "cell_1_lfp"
          (3/2)).2).cells_data = some c' ∧
      c'.capacity = pyRound (32/10 * (3/2)) 2 ∧
      ((0 : ℚ) < 3/2 → c'.status = "Active") ∧
      ((3/2 : ℚ) = 0 → c'.status = "Standby") ∧
      c'.current = 3/2 :=
  ⟨by decide, by decide,
    update_current_correct (add_cell initState "lfp" 30 "t").2 "cell_1_lfp"
      (3/2)
      { type := "lfp", voltage := 32/10, current := 0, temp := 30,
        capacity := 0, status := "Ready", created := "t" }
      (by decide) (by decide)⟩

/-- C7: `remove_cell` and `update_cell_current` on an absent id return the
structured failure and leave the whole state unchanged. -/
theorem notfound_structured (s : MonitorState) (cell_id : String)
    (current : ℚ) (h : dictGet cell_id s.cells_data = none) :
    remove_cell s cell_id = ((false, "Cell not found!"), s) ∧
    update_cell_current s cell_id current = (false, s) := by
  constructor
  · simp [remove_cell, h]
  · simp [update_cell_current, h]

/-- Witness for C7 on a one-cell registry and a missing id. -/
theorem notfound_structured_witness :
    dictGet "cell_2_lfp" ((add_cell initState "lfp" 30 "t").2).cells_data = none ∧
    remove_cell (add_cell initState "lfp" 30 "t").2 "cell_2_lfp" =
      ((false, "Cell not found!"), (add_cell initState "lfp" 30 "t").2) ∧
    update_cell_current (add_cell initState "lfp" 30 "t").2 "cell_2_lfp" 1 =
      (false, (add_cell initState "lfp" 30 "t").2) :=
  ⟨by decide,
    (notfound_structured (add_cell initState "lfp" 30 "t").2 "cell_2_lfp" 1
      (by decide)).1,
    (notfound_structured (add_cell initState "lfp" 30 "t").2 "cell_2_lfp" 1
      (by decide)).2⟩

/-- C10: updating a present cell twice with the same current produces
exactly the state of a single update. -/
theorem update_idempotent (s : MonitorState) (cell_id : String) (current : ℚ)
    (cell : Cell) (hget : dictGet cell_id s.cells_data = some cell) :
    update_cell_current (update_cell_current s cell_id current).2 cell_id current
      = update_cell_current s cell_id current := by
  have hstate : (update_cell_current s cell_id current).2 =
      ⟨dictSet cell_id
        { cell with
          current := current,
          capacity := pyRound (cell.voltage * current) 2,
          status := if 0 < current then "Active" else "Standby" }
        s.cells_data, s.cell_counter⟩ := by
    simp [update_cell_current, hget]
  rw [hstate]
  have hget2 : dictGet cell_id (dictSet cell_id
      { cell with
        current := current,
        capacity := pyRound (cell.voltage * current) 2,
        status := if 0 < current then "Active" else "Standby" }
      s.cells_data) =
    some { cell with
      current := current,
      capacity := pyRound (cell.voltage * current) 2,
      status := if 0 < current then "Active" else "Standby" } :=
    dictGet_dictSet_self _ _ _
  rw [update_cell_current, hget2, update_cell_current, hget]
  simp only [Prod.mk.injEq, MonitorState.mk.injEq]
  exact ⟨trivial, dictSet_dictSet_same _ _ _ _, trivial⟩

/-- C4: a successful `add_cell` creates a cell with `current = 0`,
`capacity = 0`, status `Ready`, voltage from the fixed table (any unknown
chemistry mapping to the Li-ion 3.6 without error), and temperature drawn
in `[25, 40]` rounded to one decimal. -/
theorem add_cell_initial (s : MonitorState) (t : String) (d : ℚ) (cr : String)
    (hlen : s.cells_data.length < 8) (h1 : 25 ≤ d) (h2 : d ≤ 40) :
    (add_cell s t d cr).1.1 = true ∧
    dictGet (cellIdStr (s.cell_counter + 1) t)
        ((add_cell s t d cr).2).cells_data =
      some { type := t, voltage := voltage_map t, current := 0,
             temp := pyRound d 1, capacity := 0, status := "Ready",
             created := cr } ∧
    (t ∉ valid_cell_types → voltage_map t = 36/10) ∧
    25 ≤ pyRound d 1 ∧ pyRound d 1 ≤ 40 ∧
    voltage_map "lfp" = 32/10 ∧ voltage_map "li-ion" = 36/10 ∧
    voltage_map "nicad" = 12/10 ∧ voltage_map "nimh" = 12/10 ∧
    voltage_map "lead-acid" = 2 := by
  rw [add_cell_success s t d cr hlen]
  refine ⟨rfl, dictGet_dictSet_self _ _ _, ?_, (pyRound1_mem_Icc h1 h2).1,
    (pyRound1_mem_Icc h1 h2).2, by decide, by decide, by decide, by decide,
    by decide⟩
  intro hnot
  simp only [valid_cell_types, List.mem_cons, List.not_mem_nil, or_false,
    not_or] at hnot
  obtain ⟨n1, n2, n3, n4, n5⟩ := hnot
  simp [voltage_map, n1, n2, n3, n4, n5]

/-- Witness for C4 adding an unknown chemistry to the empty registry with a
temperature draw of 26.55. -/
theorem add_cell_initial_witness :
    initState.cells_data.length < 8 ∧ (25 : ℚ) ≤ 531/20 ∧ (531/20 : ℚ) ≤ 40 ∧
    ((add_cell initState "sodium" (531/20) "t").1.1 = true ∧
    dictGet (cellIdStr 1 "sodium")
        ((add_cell initState "sodium" (531/20) "t").2).cells_data =
      some { type := "sodium", voltage := voltage_map "sodium", current := 0,
             temp := pyRound (531/20) 1, capacity := 0, status := "Ready",
             created := "t" } ∧
    ("sodium" ∉ valid_cell_types → voltage_map "sodium" = 36/10) ∧
    25 ≤ pyRound (531/20 : ℚ) 1 ∧ pyRound (531/20 : ℚ) 1 ≤ 40 ∧
    voltage_map "lfp" = 32/10 ∧ voltage_map "li-ion" = 36/10 ∧
    voltage_map "nicad" = 12/10 ∧ voltage_map "nimh" = 12/10 ∧
    voltage_map "lead-acid" = 2) :=
  ⟨by decide, by decide, by decide,
    add_cell_initial initState "sodium" (531/20) "t" (by decide) (by decide)
      (by decide)⟩

/-- C5: the sequence counter increments by exactly 1 on each successful add,
is unchanged by remove, update and failed add, is reset to 0 only by the
clear operation; `add; remove; add` yields two distinct ids, and an add
right after a clear yields sequence number 1. -/
theorem counter_and_fresh_ids :
    (∀ s : MonitorState, ∀ t d cr, s.cells_data.length < 8 →
      (add_cell s t d cr).1.1 = true ∧
      (add_cell s t d cr).2.cell_counter = s.cell_counter + 1) ∧
    (∀ s : MonitorState, ∀ t d cr, 8 ≤ s.cells_data.length →
      (add_cell s t d cr).2 = s) ∧
    (∀ s : MonitorState, ∀ i, (remove_cell s i).2.cell_counter = s.cell_counter) ∧
    (∀ s : MonitorState, ∀ i c,
      (update_cell_current s i c).2.cell_counter = s.cell_counter) ∧
    (∀ s : MonitorState, (clear_all s).cell_counter = 0) ∧
    (∀ s : MonitorState, ∀ t1 d1 cr1 t2 d2 cr2, s.cells_data.length < 8 →
      (remove_cell (add_cell s t1 d1 cr1).2
          (cellIdStr (s.cell_counter + 1) t1)).2.cells_data.length <
        s.cells_data.length + 1 ∧
      (add_cell (remove_cell (add_cell s t1 d1 cr1).2
          (cellIdStr (s.cell_counter + 1) t1)).2 t2 d2 cr2).1 =
        (true, "Added new cell: " ++ cellIdStr (s.cell_counter + 2) t2) ∧
      cellIdStr (s.cell_counter + 1) t1 ≠ cellIdStr (s.cell_counter + 2) t2) ∧
    (∀ s : MonitorState, ∀ t d cr,
      (add_cell (clear_all s) t d cr).1 =
        (true, "Added new cell: " ++ cellIdStr 1 t) ∧
      (add_cell (clear_all s) t d cr).2.cell_counter = 1) := by
  refine ⟨?_, ?_, ?_, ?_, ?_, ?_, ?_⟩
  · intro s t d cr hlen
    rw [add_cell_success s t d cr hlen]
    exact ⟨rfl, rfl⟩
  · intro s t d cr h
    simp [add_cell, h]
  · intro s i
    unfold remove_cell
    split <;> rfl
  · intro s i c
    unfold update_cell_current
    cases dictGet i s.cells_data <;> rfl
  · intro s
    rfl
  · intro s t1 d1 cr1 t2 d2 cr2 hlen
    rw [add_cell_success s t1 d1 cr1 hlen]
    have hpresent : (dictGet (cellIdStr (s.cell_counter + 1) t1)
        (dictSet (cellIdStr (s.cell_counter + 1) t1)
          { type := t1, voltage := voltage_map t1, current := 0,
            temp := pyRound d1 1, capacity := 0, status := "Ready",
            created := cr1 } s.cells_data)).isSome = true := by
      rw [dictGet_dictSet_self]
      rfl
    rw [remove_cell_present _ _ hpresent]
    have hlt : (dictDel (cellIdStr (s.cell_counter + 1) t1)
        (dictSet (cellIdStr (s.cell_counter + 1) t1)
          { type := t1, voltage := voltage_map t1, current := 0,
            temp := pyRound d1 1, capacity := 0, status := "Ready",
            created := cr1 } s.cells_data)).length <
        s.cells_data.length + 1 := by
      calc (dictDel _ _).length <
          (dictSet (cellIdStr (s.cell_counter + 1) t1) _ s.cells_data).length :=
        length_dictDel_lt _ _ hpresent
      _ ≤ s.cells_data.length + 1 := length_dictSet_le _ _ _
    refine ⟨hlt, ?_, cellIdStr_ne t1 t2 (by omega)⟩
    have hlen2 : (⟨dictDel (cellIdStr (s.cell_counter + 1) t1)
        (dictSet (cellIdStr (s.cell_counter + 1) t1)
          { type := t1, voltage := voltage_map t1, current := 0,
            temp := pyRound d1 1, capacity := 0, status := "Ready",
            created := cr1 } s.cells_data), s.cell_counter + 1⟩ :
          MonitorState).cells_data.length < 8 := by
      show (dictDel _ _).length < 8
      omega
    rw [add_cell_success _ t2 d2 cr2 hlen2]
  · intro s t d cr
    have hlen : (clear_all s).cells_data.length < 8 := by
      show ([] : CellsData).length < 8
      simp
    rw [add_cell_success _ t d cr hlen]
    exact ⟨rfl, rfl⟩

/-- Witness for C5: adds, removes and a clear on concrete states. -/
theorem counter_and_fresh_ids_witness :
    ((add_cell initState "lfp" 30 "t").1.1 = true ∧
      (add_cell initState "lfp" 30 "t").2.cell_counter = initState.cell_counter + 1) ∧
    (8 ≤ (runOps initState (List.replicate 8 (Op.add "lfp" 30 "t"))).cells_data.length ∧
      (add_cell (runOps initState (List.replicate 8 (Op.add "lfp" 30 "t"))) "nimh" 26 "u").2 =
        runOps initState (List.replicate 8 (Op.add "lfp" 30 "t"))) ∧
    ((remove_cell (add_cell initState "lfp" 30 "t").2
        (cellIdStr (initState.cell_counter + 1) "lfp")).2.cells_data.length <
      initState.cells_data.length + 1 ∧
      (add_cell (remove_cell (add_cell initState "lfp" 30 "t").2
          (cellIdStr (initState.cell_counter + 1) "lfp")).2 "nicad" 28 "u").1 =
        (true, "Added new cell: " ++ cellIdStr (initState.cell_counter + 2) "nicad") ∧
      cellIdStr (initState.cell_counter + 1) "lfp" ≠
        cellIdStr (initState.cell_counter + 2) "nicad") ∧
    ((add_cell (clear_all (add_cell initState "lfp" 30 "t").2) "nimh" 27 "v").1 =
        (true, "Added new cell: " ++ cellIdStr 1 "nimh") ∧
      (add_cell (clear_all (add_cell initState "lfp" 30 "t").2) "nimh" 27 "v").2.cell_counter = 1) :=
  ⟨counter_and_fresh_ids.1 initState "lfp" 30 "t" (by decide),
    ⟨by decide,
      counter_and_fresh_ids.2.1 (runOps initState (List.replicate 8 (Op.add "lfp" 30 "t")))
        "nimh" 26 "u" (by decide)⟩,
    counter_and_fresh_ids.2.2.2.2.2.1 initState "lfp" 30 "t" "nicad" 28 "u"
      (by decide),
    counter_and_fresh_ids.2.2.2.2.2.2 (add_cell initState "lfp" 30 "t").2
      "nimh" 27 "v"⟩

/-- C3 counterexample: `update_cell_current` accepts a negative current.
On a one-cell registry, updating with current `-1` succeeds and stores a
negative current, so the Registry performs no `current ≥ 0` validation. -/
theorem negative_current_accepted :
    (update_cell_current (add_cell initState "lfp" 30 "t").2 "cell_1_lfp"
      (-1)).1 = true ∧
    dictGet "cell_1_lfp"
        ((update_cell_current (add_cell initState "lfp" 30 "t").2 "cell_1_lfp"
          (-1)).2).cells_data =
      some { type := "lfp", voltage := 32/10, current := -1, temp := 30,
             capacity := -16/5, status := "Standby", created := "t" } ∧
    (-1 : ℚ) < 0 := by
  decide

theorem step_current_nonneg {s : MonitorState} (op : Op)
    (hop : opNonneg op = true)
    (hs : ∀ p ∈ s.cells_data, 0 ≤ p.2.current) :
    ∀ p ∈ (step s op).cells_data, 0 ≤ p.2.current := by
  cases op with
  | add t d cr =>
    intro p hp
    simp only [step] at hp
    unfold add_cell at hp
    by_cases hc : 8 ≤ s.cells_data.length
    · rw [if_pos hc] at hp
      exact hs p hp
    · rw [if_neg hc] at hp
      simp only at hp
      rcases mem_dictSet hp with rfl | hmem
      · exact le_refl 0
      · exact hs p hmem
  | remove i =>
    intro p hp
    simp only [step] at hp
    unfold remove_cell at hp
    split at hp
    · exact hs p (List.mem_of_mem_filter hp)
    · exact hs p hp
  | update i c =>
    intro p hp
    simp only [step] at hp
    unfold update_cell_current at hp
    cases hget : dictGet i s.cells_data with
    | none => rw [hget] at hp; exact hs p hp
    | some cell =>
      rw [hget] at hp
      simp only at hp
      rcases mem_dictSet hp with rfl | hmem
      · simpa [opNonneg] using hop
      · exact hs p hmem
  | clear =>
    intro p hp
    simp [step, clear_all] at hp

/-- C3 (amended): the Registry itself performs no `current ≥ 0` validation
in `update_cell_current` (see the counterexample); non-negativity is only a
command-surface guarantee.  Along every operation sequence whose update
operations supply non-negative currents — which all UI entry points do —
every stored current in the reachable state is non-negative. -/
theorem currents_nonneg (ops : List Op) (h : ops.all opNonneg = true) :
    ∀ p ∈ (runOps initState ops).cells_data, 0 ≤ p.2.current := by
  suffices hgen : ∀ ops : List Op, ∀ s : MonitorState, ops.all opNonneg = true →
      (∀ p ∈ s.cells_data, 0 ≤ p.2.current) →
      ∀ p ∈ (runOps s ops).cells_data, 0 ≤ p.2.current by
    exact hgen ops initState h (by intro p hp; simp [initState] at hp)
  intro ops
  induction ops with
  | nil => intro s _ hs; exact hs
  | cons op rest ih =>
    intro s hall hs
    rw [List.all_cons, Bool.and_eq_true] at hall
    exact ih (step s op) hall.2 (step_current_nonneg op hall.1 hs)

/-- Witness for C3's amended statement on an add followed by an update. -/
theorem currents_nonneg_witness :
    ([Op.add "lfp" 30 "t", Op.update "cell_1_lfp" 3].all opNonneg = true) ∧
    ∀ p ∈ (runOps initState
        [Op.add "lfp" 30 "t", Op.update "cell_1_lfp" 3]).cells_data,
      0 ≤ p.2.current :=
  ⟨by decide,
    currents_nonneg [Op.add "lfp" 30 "t", Op.update "cell_1_lfp" 3] (by decide)⟩

/-- C6 counterexample: after removing the last cell the registry is empty,
`main` short-circuits to its empty-state branch (no metrics computed), and
the aggregate expressions evaluated on the empty frame raise `KeyError`
(modelled as `none`) — neither `averageTemperature` nor `totalCapacity`
returns 0 on the empty snapshot. -/
theorem empty_metrics_not_zero :
    ((remove_cell (add_cell initState "lfp" 30 "t").2 "cell_1_lfp").2).cells_data
      = [] ∧
    mainMetrics (remove_cell (add_cell initState "lfp" 30 "t").2 "cell_1_lfp").2
      = none ∧
    seriesMean (get_cells_dataframe
      (remove_cell (add_cell initState "lfp" 30 "t").2 "cell_1_lfp").2) "temp"
      ≠ some 0 ∧
    seriesSum (get_cells_dataframe
      (remove_cell (add_cell initState "lfp" 30 "t").2 "cell_1_lfp").2) "capacity"
      ≠ some 0 ∧
    seriesMean (get_cells_dataframe
      (remove_cell (add_cell initState "lfp" 30 "t").2 "cell_1_lfp").2) "temp"
      = none ∧
    seriesSum (get_cells_dataframe
      (remove_cell (add_cell initState "lfp" 30 "t").2 "cell_1_lfp").2) "capacity"
      = none := by
  decide

theorem lookupVal_cellRow_temp (p : String × Cell) :
    lookupVal "temp" (cellRow p) = some (.q p.2.temp) := by
  simp [lookupVal, cellRow]

theorem lookupVal_cellRow_capacity (p : String × Cell) :
    lookupVal "capacity" (cellRow p) = some (.q p.2.capacity) := by
  simp [lookupVal, cellRow]

theorem lookupVal_cellRow_current (p : String × Cell) :
    lookupVal "current" (cellRow p) = some (.q p.2.current) := by
  simp [lookupVal, cellRow]

theorem lookupVal_cellRow_status (p : String × Cell) :
    lookupVal "status" (cellRow p) = some (.s p.2.status) := by
  simp [lookupVal, cellRow]

theorem seriesOf_map (name : String) (g : String × Cell → Val)
    (hg : ∀ p, lookupVal name (cellRow p) = some (g p)) :
    ∀ l : List (String × Cell), seriesOf name (l.map cellRow) = some (l.map g) := by
  intro l
  induction l with
  | nil => rfl
  | cons a rest ih =>
    rw [List.map_cons, seriesOf, hg a, ih]
    rfl

/-- C6 (amended): the aggregates are never evaluated on the empty snapshot:
`main` short-circuits to its empty-state message and the empty dataframe has
no columns, so `averageTemperature`/`totalCapacity` are undefined there
(`none`, not 0) and no division by zero can occur; on every nonempty
snapshot they equal the arithmetic mean of the temperatures and the sum of
the capacities. -/
theorem metrics_empty_guard (s : MonitorState) :
    (s.cells_data = [] →
      mainMetrics s = none ∧
      seriesMean (get_cells_dataframe s) "temp" = none ∧
      seriesSum (get_cells_dataframe s) "capacity" = none) ∧
    (s.cells_data ≠ [] →
      seriesSum (get_cells_dataframe s) "capacity" =
        some ((s.cells_data.map (fun p => p.2.capacity)).sum) ∧
      seriesMean (get_cells_dataframe s) "temp" =
        some ((s.cells_data.map (fun p => p.2.temp)).sum / s.cells_data.length) ∧
      mainMetrics s =
        some { total_cells := s.cells_data.length,
               active_cells := (s.cells_data.filter
                 (fun p => decide (p.2.status = "Active"))).length,
               total_capacity :=
                 some ((s.cells_data.map (fun p => p.2.capacity)).sum),
               avg_temp :=
                 some ((s.cells_data.map (fun p => p.2.temp)).sum /
                   s.cells_data.length),
               total_current :=
                 some ((s.cells_data.map (fun p => p.2.current)).sum) }) := by
  constructor
  · intro h
    refine ⟨by simp [mainMetrics, h], ?_, ?_⟩ <;>
      simp [seriesMean, seriesSum, dfColumn, get_cells_dataframe, h]
  · intro hne
    have hdf : get_cells_dataframe s ≠ [] := by
      simpa [get_cells_dataframe] using hne
    have hcap : seriesOf "capacity" (s.cells_data.map cellRow) =
        some (s.cells_data.map (fun p => Val.q p.2.capacity)) :=
      seriesOf_map "capacity" _ lookupVal_cellRow_capacity s.cells_data
    have htemp : seriesOf "temp" (s.cells_data.map cellRow) =
        some (s.cells_data.map (fun p => Val.q p.2.temp)) :=
      seriesOf_map "temp" _ lookupVal_cellRow_temp s.cells_data
    have hcur : seriesOf "current" (s.cells_data.map cellRow) =
        some (s.cells_data.map (fun p => Val.q p.2.current)) :=
      seriesOf_map "current" _ lookupVal_cellRow_current s.cells_data
    have hsumc : ((s.cells_data.map (fun p => Val.q p.2.capacity)).map valAsQ).sum
        = (s.cells_data.map (fun p => p.2.capacity)).sum := by
      rw [List.map_map]
      rfl
    have hsumt : ((s.cells_data.map (fun p => Val.q p.2.temp)).map valAsQ).sum
        = (s.cells_data.map (fun p => p.2.temp)).sum := by
      rw [List.map_map]
      rfl
    have hsumcur : ((s.cells_data.map (fun p => Val.q p.2.current)).map valAsQ).sum
        = (s.cells_data.map (fun p => p.2.current)).sum := by
      rw [List.map_map]
      rfl
    have hgoalc : seriesSum (get_cells_dataframe s) "capacity" =
        some ((s.cells_data.map (fun p => p.2.capacity)).sum) := by
      rw [seriesSum, dfColumn, if_neg hdf]
      simp only [get_cells_dataframe]
      rw [hcap]
      simp only [Option.map_some']
      rw [hsumc]
    have hgoalt : seriesMean (get_cells_dataframe s) "temp" =
        some ((s.cells_data.map (fun p => p.2.temp)).sum /
          s.cells_data.length) := by
      rw [seriesMean, dfColumn, if_neg hdf]
      simp only [get_cells_dataframe]
      rw [htemp]
      simp only [Option.map_some']
      rw [hsumt]
      congr 2
      rw [List.length_map]
    have hgoalcur : seriesSum (get_cells_dataframe s) "current" =
        some ((s.cells_data.map (fun p => p.2.current)).sum) := by
      rw [seriesSum, dfColumn, if_neg hdf]
      simp only [get_cells_dataframe]
      rw [hcur]
      simp only [Option.map_some']
      rw [hsumcur]
    have hfilter : ((get_cells_dataframe s).filter (fun r =>
        decide (lookupVal "status" r = some (.s "Active")))).length =
        (s.cells_data.filter (fun p => decide (p.2.status = "Active"))).length := by
      simp only [get_cells_dataframe]
      rw [List.filter_map, List.length_map]
      have hpred : ((fun r => decide (lookupVal "status" r = some (Val.s "Active")))
          ∘ cellRow) = (fun p : String × Cell => decide (p.2.status = "Active")) := by
        funext q
        simp only [Function.comp_apply, lookupVal_cellRow_status]
        apply decide_eq_decide.2
        simp
      rw [hpred]
    refine ⟨hgoalc, hgoalt, ?_⟩
    simp only [mainMetrics, if_neg hne]
    simp only [Option.some.injEq, Metrics.mk.injEq]
    exact ⟨by simp [get_cells_dataframe], hfilter, hgoalc, hgoalt, hgoalcur⟩

/-- Witness for C6's amended statement on the empty and a one-cell state. -/
theorem metrics_empty_guard_witness :
    (mainMetrics initState = none ∧
      seriesMean (get_cells_dataframe initState) "temp" = none ∧
      seriesSum (get_cells_dataframe initState) "capacity" = none) ∧
    (seriesSum (get_cells_dataframe (add_cell initState "lfp" 30 "t").2)
        "capacity" =
      some ((((add_cell initState "lfp" 30 "t").2).cells_data.map
        (fun p => p.2.capacity)).sum) ∧
    seriesMean (get_cells_dataframe (add_cell initState "lfp" 30 "t").2)
        "temp" =
      some ((((add_cell initState "lfp" 30 "t").2).cells_data.map
          (fun p => p.2.temp)).sum /
        ((add_cell initState "lfp" 30 "t").2).cells_data.length) ∧
    mainMetrics (add_cell initState "lfp" 30 "t").2 =
      some { total_cells := ((add_cell initState "lfp" 30 "t").2).cells_data.length,
             active_cells := (((add_cell initState "lfp" 30 "t").2).cells_data.filter
               (fun p => decide (p.2.status = "Active"))).length,
             total_capacity :=
               some ((((add_cell initState "lfp" 30 "t").2).cells_data.map
                 (fun p => p.2.capacity)).sum),
             avg_temp :=
               some ((((add_cell initState "lfp" 30 "t").2).cells_data.map
                   (fun p => p.2.temp)).sum /
                 ((add_cell initState "lfp" 30 "t").2).cells_data.length),
             total_current :=
               some ((((add_cell initState "lfp" 30 "t").2).cells_data.map
                 (fun p => p.2.current)).sum) }) :=
  ⟨(metrics_empty_guard initState).1 rfl,
    (metrics_empty_guard (add_cell initState "lfp" 30 "t").2).2 (by decide)⟩

/-- C8 counterexample: the CSV header the code emits is the dataframe's
column labels `Cell ID,type,voltage,current,temp,capacity,status,created`,
not the renamed header the specification states. -/
theorem csv_header_differs :
    firstLine (export_data_csv (add_cell initState "lfp" 30 "t").2) =
      "Cell ID,type,voltage,current,temp,capacity,status,created" ∧
    firstLine (export_data_csv (add_cell initState "lfp" 30 "t").2) ≠
      "CellID,chemistry,nominalVoltage,current,temperature,capacity,status,createdAt" := by
  decide

/-- C8 (amended): for every nonempty registry the CSV export is the header
row `Cell ID,type,voltage,current,temp,capacity,status,created` followed by
exactly one rendered row per cell in insertion (snapshot) order; the empty
registry exports a single blank line (empty header, no rows). -/
theorem csv_export_structure (s : MonitorState) (h : s.cells_data ≠ []) :
    export_data_csv s =
      "Cell ID,type,voltage,current,temp,capacity,status,created\n" ++
      String.join (s.cells_data.map (fun p =>
        String.intercalate "," ((cellRow p).map (fun q => renderVal q.2)) ++ "\n")) := by
  obtain ⟨a, rest, hae⟩ : ∃ a rest, s.cells_data = a :: rest := by
    cases hc : s.cells_data with
    | nil => exact absurd hc h
    | cons a rest => exact ⟨a, rest, rfl⟩
  unfold export_data_csv to_csv get_cells_dataframe
  rw [hae]
  simp only [List.map_cons, dfColumns, List.map_map]
  have hcols : (cellRow a).map Prod.fst =
      ["Cell ID", "type", "voltage", "current", "temp", "capacity", "status",
        "created"] := by
    simp [cellRow]
  rw [hcols]
  have hjoin : String.join (((a :: rest).map cellRow).map (fun r =>
      String.intercalate "," (r.map (fun p => renderVal p.2)) ++ "\n")) =
      String.join ((a :: rest).map (fun p =>
        String.intercalate "," ((cellRow p).map (fun q => renderVal q.2)) ++ "\n")) := by
    rw [List.map_map]
    rfl
  rw [show String.intercalate ","
      ["Cell ID", "type", "voltage", "current", "temp", "capacity", "status",
        "created"] =
      "Cell ID,type,voltage,current,temp,capacity,status,created" from by decide]
  rfl

/-- Witness for C8's amended statement on a two-cell registry. -/
theorem csv_export_structure_witness :
    ((add_cell (add_cell initState "lfp" 30 "t").2 "nimh" 28 "u").2).cells_data
      ≠ [] ∧
    export_data_csv (add_cell (add_cell initState "lfp" 30 "t").2 "nimh" 28 "u").2 =
      "Cell ID,type,voltage,current,temp,capacity,status,created\n" ++
      String.join ((((add_cell (add_cell initState "lfp" 30 "t").2 "nimh" 28
          "u").2).cells_data).map (fun p =>
        String.intercalate "," ((cellRow p).map (fun q => renderVal q.2)) ++ "\n")) :=
  ⟨by decide,
    csv_export_structure
      (add_cell (add_cell initState "lfp" 30 "t").2 "nimh" 28 "u").2 (by decide)⟩

/-- Witness for C10 on a freshly added cell updated twice to 2. -/
theorem update_idempotent_witness :
    dictGet "cell_1_lfp" ((add_cell initState "lfp" 30 "t").2).cells_data =
      some { type := "lfp", voltage := 32/10, current := 0, temp := 30,
             capacity := 0, status := "Ready", created := "t" } ∧
    update_cell_current
        (update_cell_current (add_cell initState "lfp" 30 "t").2 "cell_1_lfp" 2).2
        "cell_1_lfp" 2 =
      update_cell_current (add_cell initState "lfp" 30 "t").2 "cell_1_lfp" 2 :=
  ⟨by decide,
    update_idempotent (add_cell initState "lfp" 30 "t").2 "cell_1_lfp" 2
      { type := "lfp", voltage := 32/10, current := 0, temp := 30,
        capacity := 0, status := "Ready", created := "t" }
      (by decide)⟩

/-! ### JSON round-trip: token-level lemmas -/

theorem takeWhile_append_stop (p : Char → Bool) :
    ∀ (s : List Char) (c : Char) (r : List Char),
    (∀ x ∈ s, p x = true) → p c = false →
    (s ++ c :: r).takeWhile p = s ∧ (s ++ c :: r).dropWhile p = c :: r := by
  intro s
  induction s with
  | nil =>
    intro c r _ hc
    simp [List.takeWhile_cons, List.dropWhile_cons, hc]
  | cons x xs ih =>
    intro c r hs hc
    have hx : p x = true := hs x (by simp)
    have hxs : ∀ y ∈ xs, p y = true := fun y hy => hs y (by simp [hy])
    obtain ⟨h1, h2⟩ := ih c r hxs hc
    simp [List.takeWhile_cons, List.dropWhile_cons, hx, h1, h2]

theorem noQuote_chars {s : List Char} (h : noQuote s = true) :
    ∀ x ∈ s, (x ≠ '\"' : Bool) = true := by
  intro x hx
  have := (List.all_eq_true.1 h) x hx
  simp only [Bool.and_eq_true, decide_eq_true_eq] at this
  simp [this.1]

theorem parseKey_enc (k : List Char) (rest : List Char)
    (hk : noQuote k = true) :
    parseKey ('\"' :: (k ++ '\"' :: rest)) = some (k, rest) := by
  have hq : ((fun c => (c ≠ '\"' : Bool)) '\"') = false := by decide
  obtain ⟨h1, h2⟩ := takeWhile_append_stop (fun c => (c ≠ '\"' : Bool)) k '\"'
    rest (noQuote_chars hk) hq
  simp only [parseKey, h1, h2]

theorem numChar_not_ws {c : Char} (h : numChar c = true) : wsChar c = false := by
  by_contra hw
  have hw' : wsChar c = true := by
    cases hws : wsChar c
    · exact absurd hws hw
    · rfl
  have : c = ' ' ∨ c = '\n' ∨ c = '\t' ∨ c = '\r' := by
    simp only [wsChar, Bool.or_eq_true, beq_iff_eq] at hw'
    tauto
  rcases this with rfl | rfl | rfl | rfl <;> simp [numChar] at h

theorem numChar_ne_quote {c : Char} (h : numChar c = true) : c ≠ '\"' := by
  intro hc
  subst hc
  simp [numChar] at h

theorem parseScalar_enc (v : JScalar) (hv : wfScalar v = true) (c : Char)
    (rest : List Char) (hc : numChar c = false) :
    parseScalar (encScalar v ++ c :: rest) = some (v, c :: rest) := by
  cases v with
  | jstr s =>
    have hq : ((fun x => (x ≠ '\"' : Bool)) '\"') = false := by decide
    obtain ⟨h1, h2⟩ := takeWhile_append_stop (fun x => (x ≠ '\"' : Bool)) s '\"'
      (c :: rest) (noQuote_chars hv) hq
    have heq : encScalar (JScalar.jstr s) ++ c :: rest =
        '\"' :: (s ++ '\"' :: c :: rest) := by
      simp [encScalar]
    simp only [ne_eq, decide_not] at h1 h2
    rw [heq]
    simp [parseScalar, h1, h2]
  | jnum s =>
    simp only [wfScalar, Bool.and_eq_true, Bool.not_eq_true'] at hv
    obtain ⟨hne, hall⟩ := hv
    have hall' : ∀ x ∈ s, numChar x = true := List.all_eq_true.1 hall
    obtain ⟨h1, h2⟩ := takeWhile_append_stop numChar s c rest hall' hc
    cases s with
    | nil => simp [List.isEmpty] at hne
    | cons x xs =>
      have hx : numChar x = true := hall' x (by simp)
      have hxq : ¬ (x = '\"') := numChar_ne_quote hx
      simp only [encScalar, List.cons_append, parseScalar, if_neg hxq, hx,
        if_true]
      rw [show x :: (xs ++ c :: rest) = (x :: xs) ++ c :: rest from rfl, h1, h2]

theorem skipWs_cons_ws {c : Char} (h : wsChar c = true) (l : List Char) :
    skipWs (c :: l) = skipWs l := by
  simp [skipWs, h]

theorem skipWs_cons_not {c : Char} (h : wsChar c = false) (l : List Char) :
    skipWs (c :: l) = c :: l := by
  simp [skipWs, h]

theorem skipWs_encScalar (v : JScalar) (hv : wfScalar v = true)
    (y : List Char) : skipWs (encScalar v ++ y) = encScalar v ++ y := by
  cases v with
  | jstr s =>
    simp only [encScalar, List.cons_append]
    exact skipWs_cons_not (by decide) _
  | jnum s =>
    simp only [wfScalar, Bool.and_eq_true, Bool.not_eq_true'] at hv
    obtain ⟨hne, hall⟩ := hv
    cases s with
    | nil => simp [List.isEmpty] at hne
    | cons x xs =>
      have hx : numChar x = true := List.all_eq_true.1 hall x (by simp)
      simp only [encScalar, List.cons_append]
      exact skipWs_cons_not (numChar_not_ws hx) _

theorem skipWs_encField_append (k : List Char) (v : JScalar) (tail : List Char) :
    skipWs (encField (k, v) ++ tail) =
      '\"' :: (k ++ '\"' :: ':' :: ' ' :: (encScalar v ++ tail)) := by
  simp only [encField, List.cons_append, List.append_assoc]
  rw [skipWs_cons_ws (by decide), skipWs_cons_ws (by decide),
    skipWs_cons_ws (by decide), skipWs_cons_ws (by decide),
    skipWs_cons_not (by decide)]

/-! ### JSON round-trip: object-level lemmas -/

theorem parseFieldsGo_encField (fuel : ℕ) (k : List Char) (v : JScalar)
    (hk : noQuote k = true) (hv : wfScalar v = true) (c : Char)
    (z : List Char) (hc : numChar c = false) :
    parseFieldsGo (fuel + 1) (skipWs (encField (k, v) ++ c :: z)) =
      match skipWs (c :: z) with
      | ',' :: r4 =>
        (parseFieldsGo fuel (skipWs r4)).map (fun q => ((k, v) :: q.1, q.2))
      | '\x7d' :: r4 => some ([(k, v)], r4)
      | _ => none := by
  rw [skipWs_encField_append]
  simp only [parseFieldsGo]
  rw [parseKey_enc k _ hk]
  simp only
  rw [skipWs_cons_not (by decide)]
  simp only
  rw [skipWs_cons_ws (by decide), skipWs_encScalar v hv,
    parseScalar_enc v hv c z hc]

theorem parseFieldsGo_encFields : ∀ (l : JObj) (fuel : ℕ), l.length ≤ fuel →
    l ≠ [] → wfObj l = true → ∀ rest : List Char,
    parseFieldsGo fuel
        (skipWs (encFields l ++ '\n' :: ' ' :: ' ' :: '\x7d' :: rest)) =
      some (l, rest) := by
  intro l
  induction l with
  | nil => intro fuel _ hne; exact absurd rfl hne
  | cons p l' ih =>
    intro fuel hfuel hne hwf rest
    rw [wfObj, List.all_cons, Bool.and_eq_true, Bool.and_eq_true] at hwf
    obtain ⟨⟨hk, hv⟩, hwl'⟩ := hwf
    match fuel, hfuel with
    | fuel + 1, hfuel =>
      cases l' with
      | nil =>
        rw [show encFields [p] = encField p from rfl,
          show (p : List Char × JScalar) = (p.1, p.2) from rfl]
        rw [parseFieldsGo_encField fuel p.1 p.2 hk hv '\n' _ (by decide)]
        rw [skipWs_cons_ws (by decide), skipWs_cons_ws (by decide),
          skipWs_cons_ws (by decide), skipWs_cons_not (by decide)]
        rfl
      | cons q l'' =>
        rw [show encFields (p :: q :: l'') =
          encField p ++ ',' :: '\n' :: encFields (q :: l'') from rfl]
        rw [show (encField p ++ ',' :: '\n' :: encFields (q :: l'')) ++
              '\n' :: ' ' :: ' ' :: '\x7d' :: rest =
            encField p ++ ',' ::
              ('\n' :: (encFields (q :: l'') ++
                '\n' :: ' ' :: ' ' :: '\x7d' :: rest)) by
          simp [List.append_assoc]]
        rw [show (p : List Char × JScalar) = (p.1, p.2) from rfl]
        rw [parseFieldsGo_encField fuel p.1 p.2 hk hv ',' _ (by decide)]
        rw [skipWs_cons_not (by decide)]
        simp only
        rw [skipWs_cons_ws (by decide)]
        rw [ih fuel (by simpa using Nat.le_of_succ_le_succ hfuel)
          (by simp) (by rw [wfObj]; exact hwl') rest]
        rfl

theorem parseCellObj_ws (fuel : ℕ) {c : Char} (h : wsChar c = true)
    (x : List Char) : parseCellObj fuel (c :: x) = parseCellObj fuel x := by
  simp only [parseCellObj, skipWs_cons_ws h]

theorem skipWs_encFields_head (p : List Char × JScalar) (l' : JObj)
    (y : List Char) :
    ∃ z, skipWs (encFields (p :: l') ++ y) = '\"' :: z := by
  cases l' with
  | nil =>
    rw [show encFields [p] = encField p from rfl,
      show (p : List Char × JScalar) = (p.1, p.2) from rfl,
      skipWs_encField_append]
    exact ⟨_, rfl⟩
  | cons q l'' =>
    rw [show encFields (p :: q :: l'') =
        encField p ++ ',' :: '\n' :: encFields (q :: l'') from rfl,
      List.append_assoc,
      show (p : List Char × JScalar) = (p.1, p.2) from rfl,
      skipWs_encField_append]
    exact ⟨_, rfl⟩

theorem parseCellObj_enc (l : JObj) (fuel : ℕ) (hfuel : l.length ≤ fuel)
    (hwf : wfObj l = true) (rest : List Char) :
    parseCellObj fuel (encCell l ++ rest) = some (l, rest) := by
  cases l with
  | nil =>
    show parseCellObj fuel ('\x7b' :: '\x7d' :: rest) = some ([], rest)
    rw [show parseCellObj fuel ('\x7b' :: '\x7d' :: rest) =
        (match skipWs ('\x7d' :: rest) with
         | '\x7d' :: r' => some (([] : JObj), r')
         | r' => parseFieldsGo fuel r') from rfl]
    rw [skipWs_cons_not (by decide)]
    rfl
  | cons p l' =>
    rw [show encCell (p :: l') ++ rest =
        '\x7b' :: '\n' ::
          (encFields (p :: l') ++ '\n' :: ' ' :: ' ' :: '\x7d' :: rest) by
      simp [encCell, List.append_assoc]]
    rw [show parseCellObj fuel ('\x7b' :: '\n' ::
          (encFields (p :: l') ++ '\n' :: ' ' :: ' ' :: '\x7d' :: rest)) =
        (match skipWs ('\n' ::
            (encFields (p :: l') ++ '\n' :: ' ' :: ' ' :: '\x7d' :: rest)) with
         | '\x7d' :: r' => some (([] : JObj), r')
         | r' => parseFieldsGo fuel r') from rfl]
    rw [skipWs_cons_ws (by decide)]
    obtain ⟨z, hz⟩ := skipWs_encFields_head p l'
      ('\n' :: ' ' :: ' ' :: '\x7d' :: rest)
    rw [hz]
    show parseFieldsGo fuel ('\"' :: z) = some (p :: l', rest)
    rw [← hz]
    exact parseFieldsGo_encFields (p :: l') fuel hfuel (by simp) hwf rest

theorem skipWs_encEntry_append (k : List Char) (obj : JObj) (tail : List Char) :
    skipWs (encEntry (k, obj) ++ tail) =
      '\"' :: (k ++ '\"' :: ':' :: ' ' :: (encCell obj ++ tail)) := by
  simp only [encEntry, List.cons_append, List.append_assoc]
  rw [skipWs_cons_ws (by decide), skipWs_cons_ws (by decide),
    skipWs_cons_not (by decide)]

theorem parseEntriesGo_encEntry (fuel : ℕ) (k : List Char) (obj : JObj)
    (hk : noQuote k = true) (hobj : wfObj obj = true)
    (hlen : obj.length ≤ fuel) (c : Char) (z : List Char) :
    parseEntriesGo (fuel + 1) (skipWs (encEntry (k, obj) ++ c :: z)) =
      match skipWs (c :: z) with
      | ',' :: r4 =>
        (parseEntriesGo fuel (skipWs r4)).map (fun q => ((k, obj) :: q.1, q.2))
      | '\x7d' :: r4 => some ([(k, obj)], r4)
      | _ => none := by
  rw [skipWs_encEntry_append]
  simp only [parseEntriesGo]
  rw [parseKey_enc k _ hk]
  simp only
  rw [skipWs_cons_not (by decide)]
  simp only
  rw [parseCellObj_ws fuel (by decide), parseCellObj_enc obj fuel hlen hobj]

theorem parseEntriesGo_encEntries : ∀ (d : JDoc) (fuel : ℕ),
    d.length + (d.map (fun p => p.2.length)).sum ≤ fuel → d ≠ [] →
    wfDoc d = true → ∀ rest : List Char,
    parseEntriesGo fuel (skipWs (encEntries d ++ '\n' :: '\x7d' :: rest)) =
      some (d, rest) := by
  intro d
  induction d with
  | nil => intro fuel _ hne; exact absurd rfl hne
  | cons p l' ih =>
    intro fuel hfuel hne hwf rest
    rw [wfDoc, List.all_cons, Bool.and_eq_true, Bool.and_eq_true] at hwf
    obtain ⟨⟨hk, hobj⟩, hwl'⟩ := hwf
    have hfuel' : 1 + p.2.length ≤ fuel := by
      simp only [List.length_cons, List.map_cons, List.sum_cons] at hfuel
      omega
    obtain ⟨fuel, rfl⟩ : ∃ f, fuel = f + 1 := ⟨fuel - 1, by omega⟩
    · have hlen : p.2.length ≤ fuel := by omega
      cases l' with
      | nil =>
        rw [show encEntries [p] = encEntry p from rfl,
          show (p : List Char × JObj) = (p.1, p.2) from rfl]
        rw [parseEntriesGo_encEntry fuel p.1 p.2 hk hobj hlen '\n' _]
        rw [skipWs_cons_ws (by decide), skipWs_cons_not (by decide)]
        rfl
      | cons q l'' =>
        rw [show encEntries (p :: q :: l'') =
          encEntry p ++ ',' :: '\n' :: encEntries (q :: l'') from rfl]
        rw [show (encEntry p ++ ',' :: '\n' :: encEntries (q :: l'')) ++
              '\n' :: '\x7d' :: rest =
            encEntry p ++ ',' ::
              ('\n' :: (encEntries (q :: l'') ++ '\n' :: '\x7d' :: rest)) by
          simp [List.append_assoc]]
        rw [show (p : List Char × JObj) = (p.1, p.2) from rfl]
        rw [parseEntriesGo_encEntry fuel p.1 p.2 hk hobj hlen ',' _]
        rw [skipWs_cons_not (by decide)]
        simp only
        rw [skipWs_cons_ws (by decide)]
        rw [ih fuel (by
            simp only [List.length_cons, List.map_cons, List.sum_cons] at hfuel ⊢
            omega)
          (by simp) (by rw [wfDoc]; exact hwl') rest]
        rfl

theorem skipWs_encEntries_head (p : List Char × JObj) (l' : JDoc)
    (y : List Char) :
    ∃ z, skipWs (encEntries (p :: l') ++ y) = '\"' :: z := by
  cases l' with
  | nil =>
    rw [show encEntries [p] = encEntry p from rfl,
      show (p : List Char × JObj) = (p.1, p.2) from rfl,
      skipWs_encEntry_append]
    exact ⟨_, rfl⟩
  | cons q l'' =>
    rw [show encEntries (p :: q :: l'') =
        encEntry p ++ ',' :: '\n' :: encEntries (q :: l'') from rfl,
      List.append_assoc,
      show (p : List Char × JObj) = (p.1, p.2) from rfl,
      skipWs_encEntry_append]
    exact ⟨_, rfl⟩

theorem parseDocTop_enc (d : JDoc) (fuel : ℕ)
    (hfuel : d.length + (d.map (fun p => p.2.length)).sum ≤ fuel)
    (hwf : wfDoc d = true) (rest : List Char) :
    parseDocTop fuel (encDoc d ++ rest) = some (d, rest) := by
  cases d with
  | nil =>
    show parseDocTop fuel ('\x7b' :: '\x7d' :: rest) = some ([], rest)
    rw [show parseDocTop fuel ('\x7b' :: '\x7d' :: rest) =
        (match skipWs ('\x7d' :: rest) with
         | '\x7d' :: r' => some (([] : JDoc), r')
         | r' => parseEntriesGo fuel r') from rfl]
    rw [skipWs_cons_not (by decide)]
    rfl
  | cons p l' =>
    rw [show encDoc (p :: l') ++ rest =
        '\x7b' :: '\n' :: (encEntries (p :: l') ++ '\n' :: '\x7d' :: rest) by
      simp [encDoc, List.append_assoc]]
    rw [show parseDocTop fuel ('\x7b' :: '\n' ::
          (encEntries (p :: l') ++ '\n' :: '\x7d' :: rest)) =
        (match skipWs ('\n' :: (encEntries (p :: l') ++ '\n' :: '\x7d' :: rest)) with
         | '\x7d' :: r' => some (([] : JDoc), r')
         | r' => parseEntriesGo fuel r') from rfl]
    rw [skipWs_cons_ws (by decide)]
    obtain ⟨z, hz⟩ := skipWs_encEntries_head p l' ('\n' :: '\x7d' :: rest)
    rw [hz]
    show parseEntriesGo fuel ('\"' :: z) = some (p :: l', rest)
    rw [← hz]
    exact parseEntriesGo_encEntries (p :: l') fuel hfuel (by simp) hwf rest

/-! ### JSON round-trip: fuel bounds -/

theorem encField_length_pos (p : List Char × JScalar) :
    1 ≤ (encField p).length := by
  simp [encField]

theorem encFields_length_ge : ∀ l : JObj, l.length ≤ (encFields l).length := by
  intro l
  induction l with
  | nil => simp [encFields]
  | cons p l' ih =>
    cases l' with
    | nil =>
      rw [show encFields [p] = encField p from rfl]
      simpa using encField_length_pos p
    | cons q l'' =>
      rw [show encFields (p :: q :: l'') =
        encField p ++ ',' :: '\n' :: encFields (q :: l'') from rfl]
      have h1 := encField_length_pos p
      simp only [List.length_append, List.length_cons] at ih ⊢
      omega

theorem encCell_length_ge (l : JObj) : l.length ≤ (encCell l).length := by
  cases l with
  | nil => simp [encCell]
  | cons p l' =>
    have := encFields_length_ge (p :: l')
    simp only [encCell, List.length_cons, List.length_append] at this ⊢
    omega

theorem encEntry_length_ge (p : List Char × JObj) :
    1 + p.2.length ≤ (encEntry p).length := by
  have := encCell_length_ge p.2
  simp only [encEntry, List.length_cons, List.length_append]
  omega

theorem encEntries_length_ge : ∀ d : JDoc,
    d.length + (d.map (fun p => p.2.length)).sum ≤ (encEntries d).length := by
  intro d
  induction d with
  | nil => simp [encEntries]
  | cons p l' ih =>
    cases l' with
    | nil =>
      rw [show encEntries [p] = encEntry p from rfl]
      have := encEntry_length_ge p
      simp only [List.length_cons, List.length_nil, List.map_cons,
        List.map_nil, List.sum_cons, List.sum_nil]
      omega
    | cons q l'' =>
      rw [show encEntries (p :: q :: l'') =
        encEntry p ++ ',' :: '\n' :: encEntries (q :: l'') from rfl]
      have h1 := encEntry_length_ge p
      simp only [List.length_cons, List.map_cons, List.sum_cons,
        List.length_append] at ih ⊢
      omega

theorem encDoc_fuel (d : JDoc) :
    d.length + (d.map (fun p => p.2.length)).sum ≤ (encDoc d).length + 1 := by
  cases d with
  | nil => simp [encDoc]
  | cons p l' =>
    have := encEntries_length_ge (p :: l')
    simp only [encDoc, List.length_cons, List.length_append] at this ⊢
    omega

theorem json_loads_enc (d : JDoc) (hwf : wfDoc d = true) :
    json_loads (String.mk (encDoc d)) = some d := by
  unfold json_loads
  rw [show (String.mk (encDoc d)).data = encDoc d from rfl]
  have hp := parseDocTop_enc d ((encDoc d).length + 1) (encDoc_fuel d) hwf []
  rw [List.append_nil] at hp
  rw [hp]
  rfl

/-- C9: the JSON export is round-trip stable.  For every state whose cell
ids and string fields contain neither quotes nor backslashes (true of all
values the application produces), decoding the exported string yields the
exported document back, and re-encoding the decoded value reproduces the
exported string exactly (encode–decode–encode is a fixed point). -/
theorem json_export_roundtrip (s : MonitorState)
    (h : wfDoc (stateJson s) = true) :
    json_loads (export_data_json s) = some (stateJson s) ∧
    (json_loads (export_data_json s)).map (fun d => String.mk (encDoc d)) =
      some (export_data_json s) := by
  have h1 := json_loads_enc (stateJson s) h
  refine ⟨h1, ?_⟩
  rw [show export_data_json s = String.mk (encDoc (stateJson s)) from rfl, h1]
  rfl

/-- Witness for C9 on a concrete two-cell registry. -/
theorem json_export_roundtrip_witness :
    wfDoc (stateJson (add_cell (add_cell initState "lfp" 30
      "2024-01-01 00:00:00").2 "li-ion" 28 "2024-01-01 00:00:01").2) = true ∧
    (json_loads (export_data_json (add_cell (add_cell initState "lfp" 30
        "2024-01-01 00:00:00").2 "li-ion" 28 "2024-01-01 00:00:01").2) =
      some (stateJson (add_cell (add_cell initState "lfp" 30
        "2024-01-01 00:00:00").2 "li-ion" 28 "2024-01-01 00:00:01").2) ∧
    (json_loads (export_data_json (add_cell (add_cell initState "lfp" 30
        "2024-01-01 00:00:00").2 "li-ion" 28 "2024-01-01 00:00:01").2)).map
        (fun d => String.mk (encDoc d)) =
      some (export_data_json (add_cell (add_cell initState "lfp" 30
        "2024-01-01 00:00:00").2 "li-ion" 28 "2024-01-01 00:00:01").2)) :=
  ⟨by decide,
    json_export_roundtrip (add_cell (add_cell initState "lfp" 30
      "2024-01-01 00:00:00").2 "li-ion" 28 "2024-01-01 00:00:01").2 (by decide)⟩

end CellPerf
